import Mathlib

/-!
Verification of the QUIC transport facade (rs/p2p/quic_transport/src/lib.rs).

The embedding models:
- the shared peer handle table `HashMap<NodeId, ConnectionHandle>` as an
  association list whose insert replaces any existing binding of the key;
- `NodeId`, `SocketAddr`, `RegistryVersion`, `ConnId`, request and response
  payloads as opaque values (natural numbers);
- the `SendError` type and its `From<ConnectionError>` / `From<WriteError>`
  conversions;
- `SubnetTopology` and its constructor and accessors;
- the facade operations `get_conn_handle`, `rpc`, `push`, `peers`,
  `shutdown` and `start`.

Parts of the crate that live in modules not present in the sources here
(connection_handle.rs, connection_manager.rs, request_handler.rs) are
modelled from the specification and marked as such in their doc comments.
-/

abbrev NodeId := Nat

abbrev SocketAddr := Nat

abbrev RegistryVersion := Nat

/-- Model of `ConnId = AmountOf<ConnIdTag, u64>`: an opaque per-connection token. -/
abbrev ConnId := Nat

/-- Opaque model of `Request<Bytes>` payloads. -/
abbrev RequestMsg := Nat

/-- Opaque model of `Response<Bytes>` payloads. -/
abbrev ResponseMsg := Nat

/-- Model of `HashMap::insert`: any existing binding of the key is replaced. -/
def hmInsert (m : List (NodeId × α)) (k : NodeId) (v : α) : List (NodeId × α) :=
  m.filter (fun kv => kv.1 != k) ++ [(k, v)]

/-- Model of `HashMap::get`. -/
def hmGet (m : List (NodeId × α)) (k : NodeId) : Option α :=
  (m.find? (fun kv => kv.1 == k)).map (fun kv => kv.2)

/-- Model of `HashMap::contains_key`. -/
def hmContains (m : List (NodeId × α)) (k : NodeId) : Bool :=
  m.any (fun kv => kv.1 == k)

/-- Model of `HashMap::remove`. -/
def hmRemove (m : List (NodeId × α)) (k : NodeId) : List (NodeId × α) :=
  m.filter (fun kv => kv.1 != k)

/-- Model of `HashMap::from_iter`: inserts the pairs in order, so a later
occurrence of a key overwrites an earlier one. -/
def hmFromIter (l : List (NodeId × α)) : List (NodeId × α) :=
  l.foldl (fun m kv => hmInsert m kv.1 kv.2) []

/-- The key list of a map model. -/
def hmKeys (m : List (NodeId × α)) : List NodeId := m.map (fun kv => kv.1)

/-- The value associated with the last occurrence of a key in a pair list,
if any: the reference semantics for `HashMap::from_iter` on duplicate keys. -/
def lookupLast (l : List (NodeId × α)) (k : NodeId) : Option α :=
  (l.reverse.find? (fun kv => kv.1 == k)).map (fun kv => kv.2)

/-- `SendError` from lib.rs: the only two error variants of `rpc` and `push`. -/
inductive SendError where
  | ConnectionUnavailable (reason : String)
  | Internal (reason : String)
deriving Repr, DecidableEq

/-- True exactly on the `Internal` variant of `SendError`. -/
def SendError.isInternal : SendError → Bool
  | .Internal _ => true
  | .ConnectionUnavailable _ => false

/-- Model of `quinn::ConnectionError` (the variants of the quinn crate). -/
inductive ConnectionError where
  | VersionMismatch
  | TransportError (msg : String)
  | ConnectionClosed (msg : String)
  | ApplicationClosed (msg : String)
  | Reset
  | TimedOut
  | LocallyClosed
deriving Repr, DecidableEq

/-- Model of `ConnectionError::to_string`. -/
def ConnectionError.toMessage : ConnectionError → String
  | .VersionMismatch => "peer does not implement any supported version"
  | .TransportError m => m
  | .ConnectionClosed m => m
  | .ApplicationClosed m => m
  | .Reset => "connection is reset"
  | .TimedOut => "timed out"
  | .LocallyClosed => "closed"

/-- Model of `quinn::WriteError` (the variants of the quinn crate). -/
inductive WriteError where
  | Stopped (code : Nat)
  | ConnectionLost (err : ConnectionError)
  | UnknownStream
  | ZeroRttRejected
deriving Repr, DecidableEq

/-- Model of `WriteError::to_string`. -/
def WriteError.toMessage : WriteError → String
  | .Stopped c => "sending stopped by peer: error code " ++ toString c
  | .ConnectionLost e => e.toMessage
  | .UnknownStream => "unknown stream"
  | .ZeroRttRejected => "0-RTT rejected"

/-- `impl From<ConnectionError> for SendError` from lib.rs: every quinn
connection error becomes `SendError::Internal` of its message. -/
def SendError.fromConnectionError (conn_err : ConnectionError) : SendError :=
  SendError.Internal conn_err.toMessage

/-- `impl From<WriteError> for SendError` from lib.rs: `ConnectionLost`
delegates to the `ConnectionError` conversion, everything else becomes
`SendError::Internal` of its message. -/
def SendError.fromWriteError : WriteError → SendError
  | .ConnectionLost conn_err => SendError.fromConnectionError conn_err
  | w => SendError.Internal w.toMessage

/-- Modelled from the spec: connection_handle.rs is not under src/. The spec
describes a Connection Handle as a shareable facade over one established peer
connection that carries a connection identifier and offers `rpc` and `push`
operations; the per-request outcome of those operations is abstracted here as
result functions of the request. -/
structure ConnectionHandle where
  connId : ConnId
  rpcResult : RequestMsg → Except SendError ResponseMsg
  pushResult : RequestMsg → Except SendError Unit

/-- Model of `ConnectionHandle::conn_id`. -/
def ConnectionHandle.conn_id (h : ConnectionHandle) : ConnId := h.connId

/-- State of a `QuicTransport` instance: the peer handle table behind the
`Arc<RwLock<...>>`, the cancellation token (fired or not), and the task
tracker (closed flag plus, modelled from the spec, the remaining
post-cancellation work of each tracked background task). -/
structure QuicTransport where
  conn_handles : List (NodeId × ConnectionHandle)
  cancellation : Bool
  tracker_closed : Bool
  tracked_tasks : List Nat

/-- `QuicTransport::start`: binds the transport and starts the connection
manager. The table starts empty; the connection manager and its background
tasks (whose bodies are outside lib.rs) are represented by the list of
tracked tasks they register. -/
def QuicTransport.start (tasks : List Nat) : QuicTransport :=
  { conn_handles := []
    cancellation := false
    tracker_closed := false
    tracked_tasks := tasks }

/-- `QuicTransport::get_conn_handle`: reads the table and either returns the
peer's handle (cloned) or fails with `ConnectionUnavailable`. -/
def QuicTransport.get_conn_handle (st : QuicTransport) (peer_id : NodeId) :
    Except SendError ConnectionHandle :=
  match hmGet st.conn_handles peer_id with
  | none => Except.error (SendError.ConnectionUnavailable
      "Currently not connected to this peer")
  | some conn => Except.ok conn

/-- `Transport::rpc` for `QuicTransport`: look up the handle, propagate the
lookup error, otherwise delegate to the handle. -/
def QuicTransport.rpc (st : QuicTransport) (peer_id : NodeId)
    (request : RequestMsg) : Except SendError ResponseMsg :=
  match st.get_conn_handle peer_id with
  | Except.error e => Except.error e
  | Except.ok peer => peer.rpcResult request

/-- `Transport::push` for `QuicTransport`: look up the handle, propagate the
lookup error, otherwise delegate to the handle. -/
def QuicTransport.push (st : QuicTransport) (peer_id : NodeId)
    (request : RequestMsg) : Except SendError Unit :=
  match st.get_conn_handle peer_id with
  | Except.error e => Except.error e
  | Except.ok peer => peer.pushResult request

/-- `Transport::peers` for `QuicTransport`: a point-in-time list of
(peer id, connection id) pairs taken from the table. -/
def QuicTransport.peers (st : QuicTransport) : List (NodeId × ConnId) :=
  st.conn_handles.map (fun kv => (kv.1, kv.2.conn_id))

/-- State-passing form of `get_conn_handle`, mirroring that the method takes
`&self` and only acquires a read lock: it returns its result together with
the facade state it leaves behind. -/
def QuicTransport.get_conn_handleS (st : QuicTransport) (peer_id : NodeId) :
    Except SendError ConnectionHandle × QuicTransport :=
  match hmGet st.conn_handles peer_id with
  | none => (Except.error (SendError.ConnectionUnavailable
      "Currently not connected to this peer"), st)
  | some conn => (Except.ok conn, st)

/-- State-passing form of `rpc` (a `&self` method). -/
def QuicTransport.rpcS (st : QuicTransport) (peer_id : NodeId)
    (request : RequestMsg) : Except SendError ResponseMsg × QuicTransport :=
  match st.get_conn_handleS peer_id with
  | (Except.error e, st1) => (Except.error e, st1)
  | (Except.ok peer, st1) => (peer.rpcResult request, st1)

/-- State-passing form of `push` (a `&self` method). -/
def QuicTransport.pushS (st : QuicTransport) (peer_id : NodeId)
    (request : RequestMsg) : Except SendError Unit × QuicTransport :=
  match st.get_conn_handleS peer_id with
  | (Except.error e, st1) => (Except.error e, st1)
  | (Except.ok peer, st1) => (peer.pushResult request, st1)

/-- State-passing form of `peers` (a `&self` method). -/
def QuicTransport.peersS (st : QuicTransport) :
    List (NodeId × ConnId) × QuicTransport :=
  (st.conn_handles.map (fun kv => (kv.1, kv.2.conn_id)), st)

/-- Connection manager table mutation: insert or replace a peer's handle. -/
def managerInsert (st : QuicTransport) (p : NodeId) (h : ConnectionHandle) :
    QuicTransport :=
  { st with conn_handles := hmInsert st.conn_handles p h }

/-- Connection manager table mutation: remove a peer's handle. -/
def managerRemove (st : QuicTransport) (p : NodeId) : QuicTransport :=
  { st with conn_handles := hmRemove st.conn_handles p }

/-- The peer handle tables reachable from the empty table at `start` through
the connection manager's mutations: insert on connect or reconnect, remove on
disconnect or departure. -/
inductive TableReachable : List (NodeId × ConnectionHandle) → Prop
  | start : TableReachable []
  | insert (t : List (NodeId × ConnectionHandle)) (p : NodeId)
      (h : ConnectionHandle) : TableReachable t → TableReachable (hmInsert t p h)
  | remove (t : List (NodeId × ConnectionHandle)) (p : NodeId) :
      TableReachable t → TableReachable (hmRemove t p)

/-- One cooperative scheduling round of the tracked background tasks after
the cancellation signal fired: every task makes one step of its remaining
shutdown work and tasks that finish leave the tracker. -/
def taskStep (ts : List Nat) : List Nat :=
  (ts.map (fun n => n - 1)).filter (fun n => n != 0)

/-- Combined measure (total remaining work plus task count) used to show the
drain of the task tracker terminates. -/
def taskMeasure (ts : List Nat) : Nat := ts.sum + ts.length

/-- Modelled from the spec: the bodies of the management, accept and handler
tasks are in connection_manager.rs and request_handler.rs, which are not
under src/. The spec requires every long-running loop to observe the fired
cancellation signal and terminate after finitely many steps; `drainFuel` runs
up to `fuel` cooperative rounds of `TaskTracker::wait`, stopping as soon as
the tracker is empty. -/
def drainFuel : Nat → List Nat → List Nat
  | 0, ts => ts
  | fuel + 1, ts => if ts = [] then [] else drainFuel fuel (taskStep ts)

/-- `TaskTracker::wait`: runs cooperative rounds until the tracker is empty;
the combined measure bounds the number of rounds needed. -/
def drain (ts : List Nat) : List Nat :=
  drainFuel (taskMeasure ts) ts

/-- `QuicTransport::shutdown`: closes the task tracker, fires the
cancellation token, then awaits `TaskTracker::wait`, which returns once every
tracked task has finished. -/
def QuicTransport.shutdown (st : QuicTransport) : QuicTransport :=
  let st1 := { st with tracker_closed := true }
  let st2 := { st1 with cancellation := true }
  { st2 with tracked_tasks := drain st2.tracked_tasks }

/-- `SubnetTopology` from lib.rs: socket addresses of all peers in a subnet
together with the registry version range of the snapshot. -/
structure SubnetTopology where
  subnet_nodes : List (NodeId × SocketAddr)
  earliest_registry_version : RegistryVersion
  latest_registry_version : RegistryVersion
deriving Repr, DecidableEq

/-- `SubnetTopology::new`: collects the pair iterator into the node map. -/
def SubnetTopology.new (subnet_nodes : List (NodeId × SocketAddr))
    (earliest_registry_version latest_registry_version : RegistryVersion) :
    SubnetTopology :=
  { subnet_nodes := hmFromIter subnet_nodes
    earliest_registry_version := earliest_registry_version
    latest_registry_version := latest_registry_version }

/-- `SubnetTopology::is_member`: key membership in the node map. -/
def SubnetTopology.is_member (t : SubnetTopology) (node : NodeId) : Bool :=
  hmContains t.subnet_nodes node

/-- `SubnetTopology::get_addr`: the copied address of a node, if present. -/
def SubnetTopology.get_addr (t : SubnetTopology) (node : NodeId) :
    Option SocketAddr :=
  hmGet t.subnet_nodes node

/-- `SubnetTopology::get_subnet_nodes`: the key set of the node map (set
semantics of `BTreeSet`, modelled with iteration order abstracted away). -/
def SubnetTopology.get_subnet_nodes (t : SubnetTopology) : List NodeId :=
  (t.subnet_nodes.map (fun kv => kv.1)).dedup

/-- Modelled from the spec: connection_manager.rs is not under src/. The spec
says the Connection Manager reconciles the table against the latest topology
snapshot: handles of peers no longer in the snapshot are closed and removed,
peers of the snapshot without a handle are dialed and, once the dial resolves
and the Peer Authenticator accepts, inserted; `authOk` is the settled
authentication outcome per peer and `mkHandle` the handle the settled dial
produced. -/
def reconcile (table : List (NodeId × ConnectionHandle)) (S : SubnetTopology)
    (authOk : NodeId → Bool) (mkHandle : NodeId → ConnectionHandle) :
    List (NodeId × ConnectionHandle) :=
  let kept := table.filter (fun kv => S.is_member kv.1)
  let fresh := (S.get_subnet_nodes.filter
      (fun p => !hmContains kept p && authOk p)).map (fun p => (p, mkHandle p))
  kept ++ fresh

/-- Concrete handle fixture used to instantiate theorems with hypotheses. -/
def hW : ConnectionHandle :=
  { connId := 7
    rpcResult := fun r => Except.ok (r + 1)
    pushResult := fun _ => Except.ok () }

/-- Concrete facade state fixture: one connected peer with identifier 1. -/
def stW : QuicTransport :=
  { conn_handles := [(1, hW)]
    cancellation := false
    tracker_closed := false
    tracked_tasks := [] }

/-- Concrete topology fixture with two subnet nodes. -/
def topoW : SubnetTopology := SubnetTopology.new [(1, 10), (2, 20)] 3 5

/-- Concrete settled authentication outcome fixture: only peer 1 passes. -/
def authW : NodeId → Bool := fun p => p == 1

/-- Concrete settled dial outcome fixture. -/
def mkHW : NodeId → ConnectionHandle := fun p =>
  { connId := p
    rpcResult := fun _ => Except.ok 0
    pushResult := fun _ => Except.ok () }

theorem find?_filter_of_imp (l : List α) (p f : α → Bool)
    (h : ∀ x, p x = true → f x = true) : (l.filter f).find? p = l.find? p := by
  induction l with
  | nil => rfl
  | cons a l ih =>
    by_cases hf : f a = true
    · rw [List.filter_cons_of_pos hf, List.find?_cons, List.find?_cons]
      cases hp : p a <;> simp [hp, ih]
    · have hp : p a = false := by
        cases hpa : p a
        · rfl
        · exact absurd (h a hpa) hf
      rw [List.filter_cons_of_neg (by simp [hf]), List.find?_cons, hp, ih]

theorem hmGet_insert (m : List (NodeId × α)) (k : NodeId) (v : α) (q : NodeId) :
    hmGet (hmInsert m k v) q = if q = k then some v else hmGet m q := by
  unfold hmGet hmInsert
  rw [List.find?_append]
  by_cases hq : q = k
  · subst hq
    have hnone : (m.filter (fun kv => kv.1 != q)).find? (fun kv => kv.1 == q) = none := by
      rw [List.find?_eq_none]
      intro x hx
      rw [List.mem_filter] at hx
      simpa using hx.2
    simp [hnone, List.find?]
  · have hfp : ∀ kv : NodeId × α, (kv.1 == q) = true → (kv.1 != k) = true := by
      intro kv hkv
      simp only [beq_iff_eq] at hkv
      simp [hkv, hq]
    rw [find?_filter_of_imp _ _ _ hfp]
    have hkq : (k == q) = false := by simp [Ne.symm hq]
    cases hm : m.find? (fun kv => kv.1 == q) <;> simp [List.find?, hkq, hq, hm]

theorem hmGet_foldl (l : List (NodeId × α)) (acc : List (NodeId × α)) (q : NodeId) :
    hmGet (l.foldl (fun m kv => hmInsert m kv.1 kv.2) acc) q =
      (lookupLast l q).or (hmGet acc q) := by
  induction l generalizing acc with
  | nil => simp [lookupLast]
  | cons a l ih =>
    simp only [List.foldl_cons]
    rw [ih, hmGet_insert]
    unfold lookupLast
    rw [List.reverse_cons, List.find?_append]
    cases hx : (l.reverse.find? (fun kv => kv.1 == q)) with
    | some kv => simp [Option.or]
    | none =>
      by_cases hq : q = a.1
      · simp [List.find?, hq, Option.or]
      · have : (a.1 == q) = false := by simp [Ne.symm hq]
        simp [List.find?, this, hq, Option.or]

theorem hmGet_fromIter (l : List (NodeId × α)) (q : NodeId) :
    hmGet (hmFromIter l) q = lookupLast l q := by
  rw [hmFromIter, hmGet_foldl]
  cases lookupLast l q <;> simp [hmGet, Option.or, List.find?]

theorem hmKeys_insert_nodup (m : List (NodeId × α)) (k : NodeId) (v : α)
    (h : (hmKeys m).Nodup) : (hmKeys (hmInsert m k v)).Nodup := by
  simp only [hmKeys, hmInsert, List.map_append, List.map_cons, List.map_nil]
  rw [List.nodup_append]
  refine ⟨?_, List.nodup_singleton _, ?_⟩
  · exact h.sublist (List.Sublist.map _ (List.filter_sublist m))
  · intro a ha
    simp only [List.mem_map, List.mem_filter] at ha
    obtain ⟨kv, ⟨hmem, hne⟩, rfl⟩ := ha
    simp only [List.mem_singleton]
    intro hc
    simp [hc] at hne

theorem hmKeys_remove_nodup (m : List (NodeId × α)) (k : NodeId)
    (h : (hmKeys m).Nodup) : (hmKeys (hmRemove m k)).Nodup := by
  exact h.sublist (List.Sublist.map _ (List.filter_sublist m))

theorem hmContains_iff (m : List (NodeId × α)) (k : NodeId) :
    hmContains m k = true ↔ ∃ kv ∈ m, kv.1 = k := by
  simp [hmContains, List.any_eq_true]

theorem hmGet_isSome_iff (m : List (NodeId × α)) (k : NodeId) :
    (hmGet m k).isSome = true ↔ ∃ kv ∈ m, kv.1 = k := by
  unfold hmGet
  cases hfind : m.find? (fun kv => kv.1 == k) with
  | none =>
    rw [List.find?_eq_none] at hfind
    simp only [Option.map_none', Option.isSome_none, Bool.false_eq_true, false_iff]
    rintro ⟨kv, hmem, hkey⟩
    have hb : (kv.1 == k) = true := by simp [hkey]
    exact hfind kv hmem hb
  | some kv =>
    have h2 := List.find?_some hfind
    simp only [Option.map_some', Option.isSome_some, true_iff]
    exact ⟨kv, List.mem_of_find?_eq_some hfind, by simpa using h2⟩

theorem keys_nodup_unique (m : List (NodeId × α)) (p : NodeId) (v w : α)
    (hk : (hmKeys m).Nodup) (h1 : (p, v) ∈ m) (h2 : (p, w) ∈ m) : v = w := by
  induction m with
  | nil => cases h1
  | cons a m ih =>
    simp only [hmKeys, List.map_cons, List.nodup_cons, List.mem_map] at hk
    rcases List.mem_cons.mp h1 with h1a | h1m
    · rcases List.mem_cons.mp h2 with h2a | h2m
      · rw [← h1a] at h2a
        exact (Prod.mk.injEq _ _ _ _ ▸ h2a).2.symm
      · exfalso
        exact hk.1 ⟨(p, w), h2m, by rw [← h1a]⟩
    · rcases List.mem_cons.mp h2 with h2a | h2m
      · exfalso
        exact hk.1 ⟨(p, v), h1m, by rw [← h2a]⟩
      · exact ih hk.2 h1m h2m

theorem hmGet_eq_some_iff (m : List (NodeId × α)) (p : NodeId) (v : α)
    (hk : (hmKeys m).Nodup) : hmGet m p = some v ↔ (p, v) ∈ m := by
  constructor
  · intro h
    rw [hmGet] at h
    rcases Option.map_eq_some.mp h with ⟨kv, hfind, hsnd⟩
    have hmem := List.mem_of_find?_eq_some hfind
    have hkey := List.find?_some hfind
    rw [beq_iff_eq] at hkey
    have : kv = (p, v) := by
      cases kv
      simp_all
    rwa [this] at hmem
  · intro h
    have hsome : (hmGet m p).isSome = true :=
      (hmGet_isSome_iff m p).mpr ⟨(p, v), h, rfl⟩
    rcases Option.isSome_iff_exists.mp hsome with ⟨w, hw⟩
    have hmemw : (p, w) ∈ m := by
      rw [hmGet] at hw
      rcases Option.map_eq_some.mp hw with ⟨kv, hfind, hsnd⟩
      have hmem := List.mem_of_find?_eq_some hfind
      have hkey := List.find?_some hfind
      rw [beq_iff_eq] at hkey
      have : kv = (p, w) := by
        cases kv
        simp_all
      rwa [this] at hmem
    rw [hw, keys_nodup_unique m p w v hk hmemw h]

theorem taskStep_measure_le (ts : List Nat) :
    taskMeasure (taskStep ts) ≤ taskMeasure ts := by
  induction ts with
  | nil => simp [taskStep, taskMeasure]
  | cons a ts ih =>
    by_cases ha : (a - 1) = 0 <;>
      simp only [taskStep, taskMeasure, List.map_cons, List.filter_cons] at * <;>
      simp [ha] <;> omega

theorem taskStep_measure_lt (ts : List Nat) (h : ts ≠ []) :
    taskMeasure (taskStep ts) < taskMeasure ts := by
  cases ts with
  | nil => exact absurd rfl h
  | cons a ts =>
    have hle := taskStep_measure_le ts
    by_cases ha : (a - 1) = 0 <;>
      simp only [taskStep, taskMeasure, List.map_cons, List.filter_cons] at * <;>
      simp [ha] <;> omega

theorem drainFuel_eq_nil (fuel : Nat) (ts : List Nat)
    (h : taskMeasure ts ≤ fuel) : drainFuel fuel ts = [] := by
  induction fuel generalizing ts with
  | zero =>
    have hts : ts = [] := by
      cases ts with
      | nil => rfl
      | cons a l => simp [taskMeasure] at h
    rw [hts]
    rfl
  | succ fuel ih =>
    by_cases hts : ts = []
    · simp [drainFuel, hts]
    · simp only [drainFuel, if_neg hts]
      have hlt := taskStep_measure_lt ts hts
      exact ih (taskStep ts) (by omega)

theorem drain_eq_nil (ts : List Nat) : drain ts = [] :=
  drainFuel_eq_nil (taskMeasure ts) ts (le_refl _)

theorem mem_get_subnet_nodes (t : SubnetTopology) (n : NodeId) :
    n ∈ t.get_subnet_nodes ↔ t.is_member n = true := by
  rw [SubnetTopology.get_subnet_nodes, SubnetTopology.is_member, hmContains_iff,
    List.mem_dedup, List.mem_map]

theorem hmKeys_foldl_nodup (l : List (NodeId × α)) :
    ∀ acc, (hmKeys acc).Nodup →
      (hmKeys (l.foldl (fun m kv => hmInsert m kv.1 kv.2) acc)).Nodup := by
  induction l with
  | nil =>
    intro acc hacc
    simpa using hacc
  | cons a l ih =>
    intro acc hacc
    simp only [List.foldl_cons]
    exact ih _ (hmKeys_insert_nodup acc a.1 a.2 hacc)

theorem hmKeys_fromIter_nodup (l : List (NodeId × α)) :
    (hmKeys (hmFromIter l)).Nodup :=
  hmKeys_foldl_nodup l [] (by simp [hmKeys])

theorem tableReachable_keys_nodup (t : List (NodeId × ConnectionHandle))
    (h : TableReachable t) : (hmKeys t).Nodup := by
  induction h with
  | start => simp [hmKeys]
  | insert t p hd _ ih => exact hmKeys_insert_nodup t p hd ih
  | remove t p _ ih => exact hmKeys_remove_nodup t p ih

/-- C1: for every peer identifier and request, if the peer is absent from the
peer handle table then `rpc` and `push` return
`SendError::ConnectionUnavailable` directly from the table lookup, with no
connection-establishment step; if the peer is present, the call is delegated
to that peer's connection handle and the handle's result is returned
unchanged. -/
theorem rpc_push_table_lookup (st : QuicTransport) (p : NodeId) (r : RequestMsg) :
    (hmGet st.conn_handles p = none →
      st.rpc p r = Except.error (SendError.ConnectionUnavailable
        "Currently not connected to this peer") ∧
      st.push p r = Except.error (SendError.ConnectionUnavailable
        "Currently not connected to this peer")) ∧
    (∀ h : ConnectionHandle, hmGet st.conn_handles p = some h →
      st.rpc p r = h.rpcResult r ∧ st.push p r = h.pushResult r) := by
  constructor
  · intro hnone
    constructor <;>
      simp [QuicTransport.rpc, QuicTransport.push, QuicTransport.get_conn_handle, hnone]
  · intro h hsome
    constructor <;>
      simp [QuicTransport.rpc, QuicTransport.push, QuicTransport.get_conn_handle, hsome]

/-- Witness for C1 at the concrete state `stW`: peer 2 is absent and gets
`ConnectionUnavailable`, peer 1 is present and the handle's result is
returned unchanged. -/
theorem rpc_push_table_lookup_witness :
    stW.rpc 2 5 = Except.error (SendError.ConnectionUnavailable
      "Currently not connected to this peer") ∧
    stW.rpc 1 5 = hW.rpcResult 5 ∧
    stW.push 1 5 = hW.pushResult 5 :=
  ⟨((rpc_push_table_lookup stW 2 5).1 rfl).1,
   ((rpc_push_table_lookup stW 1 5).2 hW rfl).1,
   ((rpc_push_table_lookup stW 1 5).2 hW rfl).2⟩

/-- C4: `shutdown` closes the task tracker, fires the single-fire
cancellation signal, and then awaits the tracker drain; when it returns, the
cancellation token is fired, the tracker is closed and empty (no background
task of this facade instance is still running), and the peer handle table is
not touched. -/
theorem shutdown_cancels_and_drains (st : QuicTransport) :
    st.shutdown.cancellation = true ∧
    st.shutdown.tracker_closed = true ∧
    st.shutdown.tracked_tasks = [] ∧
    st.shutdown.conn_handles = st.conn_handles := by
  refine ⟨rfl, rfl, ?_, rfl⟩
  simp only [QuicTransport.shutdown]
  exact drain_eq_nil _

/-- C5: the only errors `rpc` and `push` can return are
`ConnectionUnavailable` and `Internal`; every quinn `ConnectionError`
converts to `Internal`, and every quinn `WriteError` (including
`ConnectionLost`) converts to `Internal`, never to `ConnectionUnavailable`. -/
theorem send_error_taxonomy :
    (∀ e : ConnectionError, (SendError.fromConnectionError e).isInternal = true) ∧
    (∀ w : WriteError, (SendError.fromWriteError w).isInternal = true) ∧
    (∀ err : SendError, (∃ s, err = SendError.ConnectionUnavailable s) ∨
      (∃ s, err = SendError.Internal s)) ∧
    (∀ (st : QuicTransport) (p : NodeId) (r : RequestMsg) (e : SendError),
      st.rpc p r = Except.error e →
        (∃ s, e = SendError.ConnectionUnavailable s) ∨
        (∃ s, e = SendError.Internal s)) := by
  refine ⟨fun e => rfl, fun w => ?_, fun err => ?_, fun st p r e _ => ?_⟩
  · cases w <;> rfl
  · cases err with
    | ConnectionUnavailable s => exact Or.inl ⟨s, rfl⟩
    | Internal s => exact Or.inr ⟨s, rfl⟩
  · cases e with
    | ConnectionUnavailable s => exact Or.inl ⟨s, rfl⟩
    | Internal s => exact Or.inr ⟨s, rfl⟩

/-- Witness for C5 at a concrete failing call: the error returned by
`rpc` on the absent peer 2 is one of the two `SendError` variants. -/
theorem send_error_taxonomy_witness :
    (∃ s, SendError.ConnectionUnavailable "Currently not connected to this peer" =
      SendError.ConnectionUnavailable s) ∨
    (∃ s, SendError.ConnectionUnavailable "Currently not connected to this peer" =
      SendError.Internal s) :=
  send_error_taxonomy.2.2.2 stW 2 5
    (SendError.ConnectionUnavailable "Currently not connected to this peer") rfl

/-- C7: the facade's read operations `rpc`, `push`, `peers` and
`get_conn_handle` (which take `&self` and only acquire a read lock) leave the
peer handle table unchanged, including on the failing
`ConnectionUnavailable` branch, and return the same results as their pure
forms; mutation happens only through the connection manager's insert and
remove operations. -/
theorem read_ops_preserve_table (st : QuicTransport) (p : NodeId) (r : RequestMsg) :
    (st.rpcS p r).2 = st ∧ (st.pushS p r).2 = st ∧ st.peersS.2 = st ∧
    (st.get_conn_handleS p).2 = st ∧
    (st.rpcS p r).1 = st.rpc p r ∧ (st.pushS p r).1 = st.push p r ∧
    st.peersS.1 = st.peers ∧ (st.get_conn_handleS p).1 = st.get_conn_handle p := by
  unfold QuicTransport.rpcS QuicTransport.pushS QuicTransport.peersS
    QuicTransport.get_conn_handleS QuicTransport.rpc QuicTransport.push
    QuicTransport.peers QuicTransport.get_conn_handle
  cases h : hmGet st.conn_handles p <;> simp [h]

/-- C8: a snapshot built by `SubnetTopology::new` returns its registry
version bounds unchanged, and membership, address lookup and the subnet node
set agree: a node is a member exactly when it has an address and exactly when
it is among the subnet nodes; a peer absent from the mapping is not a
member. -/
theorem subnet_topology_new_spec (pairs : List (NodeId × SocketAddr))
    (e l : RegistryVersion) :
    (SubnetTopology.new pairs e l).earliest_registry_version = e ∧
    (SubnetTopology.new pairs e l).latest_registry_version = l ∧
    ∀ n : NodeId,
      ((SubnetTopology.new pairs e l).is_member n = true ↔
        ∃ a, (SubnetTopology.new pairs e l).get_addr n = some a) ∧
      ((SubnetTopology.new pairs e l).is_member n = true ↔
        n ∈ (SubnetTopology.new pairs e l).get_subnet_nodes) := by
  refine ⟨rfl, rfl, fun n => ⟨?_, (mem_get_subnet_nodes _ n).symm⟩⟩
  rw [SubnetTopology.is_member, SubnetTopology.get_addr, hmContains_iff,
    ← hmGet_isSome_iff]
  exact Option.isSome_iff_exists

/-- C9: immediately after `start`, before the connection manager has
published any handle, the table is empty: `peers` returns the empty list and
`rpc` and `push` return `ConnectionUnavailable` for every peer and
request. -/
theorem start_table_empty (tasks : List Nat) :
    (QuicTransport.start tasks).peers = [] ∧
    ∀ (p : NodeId) (r : RequestMsg),
      (QuicTransport.start tasks).rpc p r = Except.error
        (SendError.ConnectionUnavailable "Currently not connected to this peer") ∧
      (QuicTransport.start tasks).push p r = Except.error
        (SendError.ConnectionUnavailable "Currently not connected to this peer") :=
  ⟨rfl, fun _ _ => ⟨rfl, rfl⟩⟩

/-- C10: when the pair list given to `SubnetTopology::new` contains a peer
more than once, the snapshot maps that peer to the address of its last
occurrence, the stored node map binds each key at most once, and
`get_subnet_nodes` contains each peer identifier at most once. -/
theorem from_iter_last_occurrence (l : List (NodeId × SocketAddr))
    (e v : RegistryVersion) (p : NodeId) :
    (SubnetTopology.new l e v).get_addr p = lookupLast l p ∧
    (hmKeys (SubnetTopology.new l e v).subnet_nodes).Nodup ∧
    (SubnetTopology.new l e v).get_subnet_nodes.Nodup :=
  ⟨hmGet_fromIter l p, hmKeys_fromIter_nodup l, List.nodup_dedup _⟩

theorem peers_map_fst (st : QuicTransport) :
    (st.peers).map Prod.fst = hmKeys st.conn_handles := by
  rw [QuicTransport.peers, hmKeys, List.map_map]
  rfl

/-- C3: at every reachable state of the peer handle table (empty at start
and mutated only by the connection manager's insert and remove), the table
binds at most one connection handle per peer identifier, so the list
returned by `peers` contains no two entries with the same peer
identifier. -/
theorem peers_nodup_of_reachable (st : QuicTransport)
    (h : TableReachable st.conn_handles) :
    (hmKeys st.conn_handles).Nodup ∧ ((st.peers).map Prod.fst).Nodup := by
  have hk := tableReachable_keys_nodup _ h
  rw [peers_map_fst]
  exact ⟨hk, hk⟩

/-- Witness for C3 at the reachable state obtained by inserting peer 1 into
the empty table. -/
theorem peers_nodup_of_reachable_witness :
    (hmKeys stW.conn_handles).Nodup ∧ ((stW.peers).map Prod.fst).Nodup :=
  peers_nodup_of_reachable stW (TableReachable.insert [] 1 hW TableReachable.start)

/-- C6: `peers` returns a point-in-time snapshot of the table: when the
table binds each peer at most once (as every reachable table does), the
returned value contains a pair (p, c) exactly when the table currently maps
p to a handle whose connection identifier is c, and it contains no duplicate
peer entries — hence exactly one pair per peer present in the table. The
snapshot is a plain value, independent of later table mutation. -/
theorem peers_snapshot_characterization (st : QuicTransport)
    (hk : (hmKeys st.conn_handles).Nodup) :
    (∀ (p : NodeId) (c : ConnId),
      (p, c) ∈ st.peers ↔
        ∃ h, hmGet st.conn_handles p = some h ∧ c = h.conn_id) ∧
    ((st.peers).map Prod.fst).Nodup := by
  constructor
  · intro p c
    rw [QuicTransport.peers, List.mem_map]
    constructor
    · rintro ⟨kv, hmem, heq⟩
      rw [Prod.mk.injEq] at heq
      refine ⟨kv.2, ?_, heq.2.symm⟩
      rw [hmGet_eq_some_iff _ _ _ hk, ← heq.1]
      simpa using hmem
    · rintro ⟨h, hget, rfl⟩
      have hmem : (p, h) ∈ st.conn_handles :=
        (hmGet_eq_some_iff _ _ _ hk).mp hget
      exact ⟨(p, h), hmem, rfl⟩
  · rw [peers_map_fst]
    exact hk

/-- Witness for C6 at the concrete state `stW`, peer 1, connection id 7. -/
theorem peers_snapshot_characterization_witness :
    ((1, 7) ∈ stW.peers ↔
      ∃ h, hmGet stW.conn_handles 1 = some h ∧ 7 = h.conn_id) ∧
    ((stW.peers).map Prod.fst).Nodup :=
  ⟨(peers_snapshot_characterization stW (by decide)).1 1 7,
   (peers_snapshot_characterization stW (by decide)).2⟩

/-- C2: once reconciliation settles on a topology snapshot S (no further
updates, all dials resolved, authentication outcomes fixed), the key set of
the peer handle table is exactly the peer set of S minus the peers whose
authentication failed: a peer is in the reconciled table exactly when it is
a member of S and its authentication succeeded. The hypothesis states the
table invariant that every peer already in the table had authenticated. -/
theorem reconcile_convergence (table : List (NodeId × ConnectionHandle))
    (S : SubnetTopology) (authOk : NodeId → Bool)
    (mkHandle : NodeId → ConnectionHandle)
    (hprev : ∀ q, hmContains table q = true → authOk q = true) :
    ∀ p, hmContains (reconcile table S authOk mkHandle) p = true ↔
      (S.is_member p = true ∧ authOk p = true) := by
  intro p
  simp only [reconcile]
  rw [hmContains_iff]
  constructor
  · rintro ⟨kv, hmem, rfl⟩
    rw [List.mem_append] at hmem
    cases hmem with
    | inl hkept =>
      rw [List.mem_filter] at hkept
      exact ⟨hkept.2, hprev _ ((hmContains_iff _ _).mpr ⟨kv, hkept.1, rfl⟩)⟩
    | inr hfresh =>
      rw [List.mem_map] at hfresh
      obtain ⟨q, hq, hqe⟩ := hfresh
      rw [List.mem_filter] at hq
      have hq1 : kv.1 = q := by rw [← hqe]
      rw [Bool.and_eq_true] at hq
      rw [hq1]
      exact ⟨(mem_get_subnet_nodes S q).mp hq.1, hq.2.2⟩
  · rintro ⟨hmem, hauth⟩
    by_cases hkept :
        hmContains (table.filter (fun kv => S.is_member kv.1)) p = true
    · obtain ⟨kv, hkv, hkvp⟩ := (hmContains_iff _ _).mp hkept
      exact ⟨kv, List.mem_append.mpr (Or.inl hkv), hkvp⟩
    · refine ⟨(p, mkHandle p), List.mem_append.mpr (Or.inr ?_), rfl⟩
      rw [List.mem_map]
      refine ⟨p, ?_, rfl⟩
      rw [List.mem_filter]
      refine ⟨(mem_get_subnet_nodes S p).mpr hmem, ?_⟩
      simp only [Bool.and_eq_true, Bool.not_eq_true']
      exact ⟨Bool.not_eq_true _ ▸ hkept, hauth⟩

/-- Witness for C2 at the concrete topology `topoW` starting from the empty
table: the invariant hypothesis holds vacuously and peer 1 (member,
authenticated) characterizes table membership. -/
theorem reconcile_convergence_witness :
    hmContains (reconcile [] topoW authW mkHW) 1 = true ↔
      (topoW.is_member 1 = true ∧ authW 1 = true) :=
  reconcile_convergence [] topoW authW mkHW
    (fun q hq => by simp [hmContains] at hq) 1
